import Mathlib

/-!
Verification of the Transaction Query & Aggregation Engine of `finance.py`.

The engine is embedded shallowly:

* a stored row (`TxRow`) carries the SQLite column values of one row of the
  `transactions` table; since SQLite is dynamically typed the `amount`
  column is modelled as `PyVal` (a REAL number or a TEXT value);
* `fetch_transactions` (`fetchTransactions` below) is the SQL query
  `SELECT * FROM transactions WHERE 1=1 [AND date >= ?] [AND date <= ?]
  ORDER BY date DESC` followed by the in-Python category filter;
* the `index` view's two aggregation loops become `totalsLoop` and
  `monthlyLoop`; Python statements that can raise (`float(...)` on a
  non-numeric value, an out-of-range list index) are embedded in the
  `Except PyErr` monad;
* Python floats are modelled as exact rationals, and `round(x, 2)` /
  the `'%.2f'` template format as round-half-to-even on the exact value
  (`round2`).
-/

namespace Finance

/-! ### Byte-wise string order (SQLite TEXT comparison)

SQLite compares TEXT values with `memcmp` over their UTF-8 encodings,
which coincides with lexicographic comparison of the code-point
sequences (UTF-8 is order preserving).  `bytesLe` is that order on
`List Char`. -/

def bytesLe : List Char → List Char → Bool
  | [], _ => true
  | _ :: _, [] => false
  | a :: as, b :: bs =>
    decide (a < b) || (a == b && bytesLe as bs)

/-! ### Python string helpers -/

/-- Python `str.strip()` — remove leading and trailing whitespace.  (Python strips
all Unicode whitespace; the dates and queries handled by the engine only
contain ASCII whitespace, which `Char.isWhitespace` covers.) -/
def trimWs (l : List Char) : List Char :=
  ((l.dropWhile Char.isWhitespace).reverse.dropWhile Char.isWhitespace).reverse

/-- One character of `str.casefold()`.  Python performs full Unicode case
folding; the engine's categories and queries are Latin and Cyrillic, so the
fold is modelled on those scripts: ASCII `A`–`Z` and Cyrillic `А`–`Я`
(U+0410–U+042F) map down by 0x20, `Ё` (U+0401) maps to `ё` (U+0451). -/
def caseFold1 (c : Char) : Char :=
  if 'A' ≤ c ∧ c ≤ 'Z' then Char.ofNat (c.toNat + 32)
  else if 'А' ≤ c ∧ c ≤ 'Я' then Char.ofNat (c.toNat + 32)
  else if c = 'Ё' then 'ё'
  else c

/-- Python `str.casefold()` on a character list. -/
def caseFold (l : List Char) : List Char := l.map caseFold1

/-- Does `hay` start with `needle`? -/
def listStartsWith : List Char → List Char → Bool
  | [], _ => true
  | _ :: _, [] => false
  | a :: as, b :: bs => a == b && listStartsWith as bs

/-- Python's `needle in hay` substring containment test. -/
def containsSub (needle : List Char) : List Char → Bool
  | [] => needle.isEmpty
  | c :: rest => listStartsWith needle (c :: rest) || containsSub needle rest

/-! ### Digits, `int()` and `float()` -/

def digitVal (c : Char) : ℕ := c.toNat - 48

def digitChar (n : ℕ) : Char := Char.ofNat (48 + n)

/-- Format `"%02d"` of a number below 100. -/
def pad2 (n : ℕ) : List Char := [digitChar (n / 10 % 10), digitChar (n % 10)]

/-- Format `"%04d"` of a number below 10000. -/
def pad4 (n : ℕ) : List Char :=
  [digitChar (n / 1000 % 10), digitChar (n / 100 % 10),
   digitChar (n / 10 % 10), digitChar (n % 10)]

/-- Numeric value of a digit string. -/
def natVal (l : List Char) : ℕ := l.foldl (fun acc c => 10 * acc + digitVal c) 0

/-- Python `str.split('-')`: split at every `'-'`, keeping empty pieces. -/
def splitDash : List Char → List (List Char)
  | [] => [[]]
  | '-' :: rest => [] :: splitDash rest
  | c :: rest =>
    match splitDash rest with
    | [] => [[c]]
    | p :: ps => (c :: p) :: ps

/-- Digit run of an `int()` literal: non-empty, starts with a digit,
single underscores may separate digit groups. -/
def digitRun : List Char → Bool
  | [] => false
  | c :: rest => c.isDigit && digitRunAux rest
where digitRunAux : List Char → Bool
  | [] => true
  | '_' :: c :: rest => c.isDigit && digitRunAux rest
  | ['_'] => false
  | c :: rest => c.isDigit && digitRunAux rest

/-- Python `int(s)`: surrounding whitespace, an optional sign, then a
digit run (underscore separators allowed).  `none` models a raised
`ValueError`.  (Non-ASCII decimal digits, which Python would also accept,
are not modelled; the engine's month strings are ASCII.) -/
def pyInt (l : List Char) : Option ℤ :=
  let s := trimWs l
  match s with
  | '+' :: r => if digitRun r then some (natVal (r.filter (· ≠ '_'))) else none
  | '-' :: r => if digitRun r then some (-(natVal (r.filter (· ≠ '_')) : ℤ)) else none
  | r => if digitRun r then some (natVal (r.filter (· ≠ '_'))) else none

/-- Unsigned part of a `float()` literal: `digits`, `digits.`, `.digits`
or `digits.digits`. -/
def parseUnsignedFloat (l : List Char) : Option ℚ :=
  let ip := l.takeWhile Char.isDigit
  let rest := l.drop ip.length
  match rest with
  | [] => if ip.isEmpty then none else some (natVal ip)
  | '.' :: fp =>
    if fp.all Char.isDigit && !(ip.isEmpty && fp.isEmpty) then
      some ((natVal ip : ℚ) + (natVal fp : ℚ) / (10 : ℚ) ^ fp.length)
    else none
  | _ => none

/-- Python `float(s)` on a TEXT value: surrounding whitespace, optional
sign, decimal literal.  `none` models a raised `ValueError`.
(Exponent notation, `inf`/`nan` and underscore separators are not
modelled.) -/
def parseFloat (s : String) : Option ℚ :=
  match trimWs s.data with
  | '+' :: r => parseUnsignedFloat r
  | '-' :: r => (parseUnsignedFloat r).map (- ·)
  | r => parseUnsignedFloat r

/-! ### Calendar (`calendar.monthrange`, `calendar.isleap`) -/

/-- Python `calendar.isleap(y)`. -/
def isLeap (y : ℕ) : Bool := y % 4 == 0 && (y % 100 != 0 || y % 400 == 0)

/-- Python `calendar.monthrange(y, m)[1]`, the day count of month `m` of year
`y`.  `calendar.monthrange` raises `IllegalMonthError` for `m ∉ [1, 12]`;
every caller in the engine guards that range, and the value returned
outside it (0) is never used. -/
def daysInMonth (y m : ℕ) : ℕ :=
  match m with
  | 1 => 31
  | 2 => if isLeap y then 29 else 28
  | 3 => 31
  | 4 => 30
  | 5 => 31
  | 6 => 30
  | 7 => 31
  | 8 => 31
  | 9 => 30
  | 10 => 31
  | 11 => 30
  | 12 => 31
  | _ => 0

/-- The string `date(y, m, d).isoformat()`, the `"YYYY-MM-DD"` character list, for
`1 ≤ y ≤ 9999` (the range `datetime.date` admits). -/
def isoChars (y m d : ℕ) : List Char :=
  pad4 y ++ '-' :: (pad2 m ++ '-' :: pad2 d)

/-- Python `datetime.fromisoformat(s).day`: `none` models a raised `ValueError`.
The date part must be exactly `YYYY-MM-DD` with a valid month and a valid
day for that month, as Python validates; a non-empty remainder models the
optional `*HH[:MM[:SS...]]` time-of-day portion, whose minimal form is a
separator plus a two-digit hour — the remainder's digits and field ranges
are not validated further in this model. -/
def parseIsoDay (s : String) : Option ℕ :=
  match s.data with
  | y1 :: y2 :: y3 :: y4 :: '-' :: m1 :: m2 :: '-' :: d1 :: d2 :: rest =>
    if [y1, y2, y3, y4, m1, m2, d1, d2].all Char.isDigit
        && (rest.isEmpty || rest.length ≥ 3)
        && (1 ≤ natVal [m1, m2] && natVal [m1, m2] ≤ 12)
        && (1 ≤ natVal [d1, d2]
            && natVal [d1, d2] ≤ daysInMonth (natVal [y1, y2, y3, y4]) (natVal [m1, m2]))
    then some (natVal [d1, d2]) else none
  | _ => none

/-! ### Rounding for display

`round(x, 2)` and the template's `'%.2f'|format(x)` both round the value
to two decimal places, ties to even.  (Python applies this to the binary
double nearest `x`; the model applies it to the exact rational.) -/

/-- Round half to even, to an integer. -/
def rhe (x : ℚ) : ℤ :=
  if x - ⌊x⌋ < 1/2 then ⌊x⌋
  else if x - ⌊x⌋ > 1/2 then ⌊x⌋ + 1
  else if 2 ∣ ⌊x⌋ then ⌊x⌋ else ⌊x⌋ + 1

/-- Python `round(x, 2)`. -/
def round2 (x : ℚ) : ℚ := (rhe (100 * x) : ℚ) / 100

/-! ### Data model -/

/-- A dynamically-typed SQLite column value, as the `amount` column can
hold: a REAL/INTEGER number or a TEXT value. -/
inductive PyVal where
  | num (q : ℚ)
  | text (s : String)
deriving DecidableEq, Repr

/-- One row of the `transactions` table, as the dict `fetch_transactions`
yields: `id` is the AUTOINCREMENT rowid, `type` is `'income'` or
`'expense'` (loosely validated text), `date` is the ISO text column. -/
structure TxRow where
  id : ℕ
  type : String
  category : String
  amount : PyVal
  date : String
  comment : Option String
deriving DecidableEq, Repr

/-- Python `float(row['amount'])`: a number converts to itself, text is parsed;
`none` models a raised exception. -/
def pyFloat : PyVal → Option ℚ
  | .num q => some q
  | .text s => parseFloat s

/-- A raised Python exception, distinguished by kind. -/
inductive PyErr where
  | valueError
  | indexError
deriving DecidableEq, Repr

instance {ε α : Type} [DecidableEq ε] [DecidableEq α] : DecidableEq (Except ε α) :=
  fun a b =>
    match a, b with
    | .error e, .error f =>
      if h : e = f then .isTrue (h ▸ rfl)
      else .isFalse fun c => by cases c; exact h rfl
    | .error _, .ok _ => .isFalse Except.noConfusion
    | .ok _, .error _ => .isFalse Except.noConfusion
    | .ok a, .ok b =>
      if h : a = b then .isTrue (h ▸ rfl)
      else .isFalse fun c => by cases c; exact h rfl

/-! ### The Filter Engine: `fetch_transactions`

```
q = 'SELECT * FROM transactions WHERE 1=1'
if period_from: q += ' AND date >= ?'
if period_to:   q += ' AND date <= ?'
q += ' ORDER BY date DESC'
rows = [dict(row) for row in db.execute(q, params).fetchall()]
if category_query:
    needle = category_query.strip().casefold()
    rows = [r for r in rows if needle in str(r.get('category','')).strip().casefold()]
```

The stored table is modelled as the list of rows in rowid (insertion)
order.  `if period_from:` is Python truthiness: `None` and `''` add no
constraint. -/

/-- The `date >= period_from` constraint of the WHERE clause (absent or
empty bound: no constraint). -/
def passFrom (f : Option String) (d : String) : Bool :=
  match f with
  | none => true
  | some s => if s = "" then true else bytesLe s.data d.data

/-- The `date <= period_to` constraint of the WHERE clause (absent or
empty bound: no constraint). -/
def passTo (t : Option String) (d : String) : Bool :=
  match t with
  | none => true
  | some s => if s = "" then true else bytesLe d.data s.data

/-- The in-Python category filter: the stripped, case-folded query is a
substring of the stripped, case-folded category. -/
def catMatch (cq : String) (r : TxRow) : Bool :=
  containsSub (caseFold (trimWs cq.data)) (caseFold (trimWs r.category.data))

/-- The emission order of `ORDER BY date DESC`: `a` comes no later than
`b`.  SQLite serves the clause by a reverse scan of
`idx_transactions_date`, whose entries are ordered by `(date, rowid)`
ascending; the reverse scan therefore emits rows by date descending and,
between equal dates, by rowid descending. -/
def rowBefore (a b : TxRow) : Prop :=
  (a.date = b.date ∧ b.id ≤ a.id) ∨
  (a.date ≠ b.date ∧ bytesLe b.date.data a.date.data = true)

instance : DecidableRel rowBefore := fun a b => by
  unfold rowBefore; infer_instance

/-- The function `fetch_transactions(period_from, period_to, category_query)`. -/
def fetchTransactions (db : List TxRow)
    (period_from period_to category_query : Option String) : List TxRow :=
  let rows := db.filter fun r => passFrom period_from r.date && passTo period_to r.date
  let rows := List.insertionSort rowBefore rows
  match category_query with
  | none => rows
  | some cq => if cq = "" then rows else rows.filter (catMatch cq)

/-! ### The Totals Aggregator: the totals loop of `index`

```
totals = {'income': 0.0, 'expense': 0.0}
expense_category_sums = defaultdict(float)
for t in transactions:
    amt = float(t['amount'])
    if t['type'] == 'income':
        totals['income'] += amt
    elif t['type'] == 'expense':
        totals['expense'] += amt
        expense_category_sums[t['category']] += amt
```

`defaultdict(float)` is modelled as an association list that keeps keys
in first-encounter order; `float(t['amount'])` has no handler around it,
so a non-numeric amount raises (`Except.error .valueError`). -/

/-- The update `expense_category_sums[c] += a` on a `defaultdict(float)`. -/
def addCat : List (String × ℚ) → String → ℚ → List (String × ℚ)
  | [], c, a => [(c, a)]
  | (c', v) :: rest, c, a =>
    if c' = c then (c', v + a) :: rest else (c', v) :: addCat rest c a

/-- Dictionary lookup with the `defaultdict(float)` default `0.0`. -/
def lookupCat : List (String × ℚ) → String → ℚ
  | [], _ => 0
  | (c', v) :: rest, c => if c' = c then v else lookupCat rest c

/-- The totals loop, threading `(totals['income'], totals['expense'],
expense_category_sums)`. -/
def totalsLoop : List TxRow → ℚ × ℚ × List (String × ℚ) →
    Except PyErr (ℚ × ℚ × List (String × ℚ))
  | [], acc => .ok acc
  | t :: ts, (inc, exp, cats) =>
    match pyFloat t.amount with
    | none => .error .valueError
    | some amt =>
      if t.type = "income" then totalsLoop ts (inc + amt, exp, cats)
      else if t.type = "expense" then
        totalsLoop ts (inc, exp + amt, addCat cats t.category amt)
      else totalsLoop ts (inc, exp, cats)

/-- The list `expense_cat_values = [round(expense_category_sums[c], 2) for c in
expense_categories]` where `expense_categories` is the key list. -/
def expenseCatValues (m : List (String × ℚ)) : List ℚ :=
  (m.map Prod.fst).map fun c => round2 (lookupCat m c)

/-! ### Month resolution of the Monthly Series Builder

```
today = date.today()
if month:
    try: year, mon = map(int, month.split('-'))
    except Exception: year, mon = today.year, today.month
else:
    year, mon = today.year, today.month
```

Any failure inside the `try` — a part that `int()` rejects, or a part
count other than two (unpacking error) — takes the fallback. -/

/-- The fixed current date (`date.today()`), a valid calendar date. -/
structure Today where
  year : ℕ
  month : ℕ
deriving DecidableEq, Repr

/-- Resolve the reporting `(year, mon)` from the `month` request
parameter. -/
def resolveMonth (month : String) (t : Today) : ℤ × ℤ :=
  if month = "" then ((t.year : ℤ), (t.month : ℤ))
  else
    match splitDash month.data with
    | [a, b] =>
      match pyInt a, pyInt b with
      | some y, some m => (y, m)
      | _, _ => ((t.year : ℤ), (t.month : ℤ))
    | _ => ((t.year : ℤ), (t.month : ℤ))

/-- Does `month` fail to parse as two integers (the condition that takes
the `except` fallback when `month` is non-empty)? -/
def monthParseFails (month : String) : Bool :=
  match splitDash month.data with
  | [a, b] => (pyInt a).isNone || (pyInt b).isNone
  | _ => true

/-! ### The Monthly Series Builder: the per-day loop of `index`

```
days_in_month = calendar.monthrange(year, mon)[1]
income_by_day = [0.0] * days_in_month
expense_by_day = [0.0] * days_in_month
first_day = date(year, mon, 1).isoformat()
last_day = date(year, mon, days_in_month).isoformat()
monthly_transactions = fetch_transactions(first_day, last_day, None)
for tx in monthly_transactions:
    try: d = datetime.fromisoformat(tx['date']).day
    except Exception: continue
    amt = float(tx['amount'])
    if tx['type'] == 'income':  income_by_day[d - 1] += amt
    elif tx['type'] == 'expense': expense_by_day[d - 1] += amt
```
-/

/-- The update `l[i] += a` on a Python list: `IndexError` when `i` is out of
range. -/
def listAdd (l : List ℚ) (i : ℕ) (a : ℚ) : Except PyErr (List ℚ) :=
  if h : i < l.length then .ok (l.set i (l.get ⟨i, h⟩ + a)) else .error .indexError

/-- The per-day accumulation loop over the month's rows. -/
def monthlyLoop : List TxRow → List ℚ → List ℚ →
    Except PyErr (List ℚ × List ℚ)
  | [], ib, eb => .ok (ib, eb)
  | tx :: rest, ib, eb =>
    match parseIsoDay tx.date with
    | none => monthlyLoop rest ib eb
    | some d =>
      match pyFloat tx.amount with
      | none => .error .valueError
      | some amt =>
        if tx.type = "income" then
          match listAdd ib (d - 1) amt with
          | .error e => .error e
          | .ok ib' => monthlyLoop rest ib' eb
        else if tx.type = "expense" then
          match listAdd eb (d - 1) amt with
          | .error e => .error e
          | .ok eb' => monthlyLoop rest ib eb'
        else monthlyLoop rest ib eb

/-- The month's working set: `fetch_transactions(first_day, last_day,
None)`. -/
def monthFetch (db : List TxRow) (y m : ℕ) : List TxRow :=
  fetchTransactions db
    (some ⟨isoChars y m 1⟩) (some ⟨isoChars y m (daysInMonth y m)⟩) none

/-- The Monthly Series Builder for a resolved `(year, mon)`:
`(income_by_day, expense_by_day)` before display rounding.
`calendar.monthrange` and `datetime.date` raise for a month outside
`[1, 12]` or a year outside `[1, 9999]` (`Except.error .valueError`). -/
def monthlySeries (db : List TxRow) (year mon : ℤ) :
    Except PyErr (List ℚ × List ℚ) :=
  if 1 ≤ mon ∧ mon ≤ 12 ∧ 1 ≤ year ∧ year ≤ 9999 then
    monthlyLoop (monthFetch db year.toNat mon.toNat)
      (List.replicate (daysInMonth year.toNat mon.toNat) 0)
      (List.replicate (daysInMonth year.toNat mon.toNat) 0)
  else .error .valueError

/-! ### The Report Assembler: the `index` view -/

/-- Decimal digits of a number, as Python's unpadded `f"{year}"`. -/
def natChars (n : ℕ) : List Char :=
  if n < 10 then [digitChar n]
  else natChars (n / 10) ++ [digitChar (n % 10)]

/-- The value `display_month`: `f"{year}-{mon:02d}"` when a month parameter was
given, else `today.strftime('%Y-%m')`. -/
def displayMonth (month : String) (y m : ℤ) (t : Today) : List Char :=
  if month = "" then pad4 t.year ++ '-' :: pad2 t.month
  else natChars y.toNat ++ '-' :: pad2 m.toNat

/-- Everything `index` hands to the template. -/
structure Payload where
  transactions : List TxRow
  income : ℚ
  expense : ℚ
  expenseCategories : List String
  expenseCatVals : List ℚ
  incomeLabels : List ℕ
  incomeValues : List ℚ
  expenseValues : List ℚ
  display : List Char
deriving DecidableEq, Repr

/-- The `index` view (lines 97–174): filter, total, resolve the month,
build the monthly series, assemble the template payload.  `frm`, `to`,
`qRaw`, `month` are the `from`, `to`, `q`, `month` request parameters
(`none` = absent; `q` and `month` default to `''`). -/
def indexRoute (db : List TxRow) (frm toQ : Option String) (qRaw : String)
    (month : String) (t : Today) : Except PyErr Payload :=
  let q : String := ⟨trimWs qRaw.data⟩
  let transactions := fetchTransactions db frm toQ (if q = "" then none else some q)
  match totalsLoop transactions (0, 0, []) with
  | .error e => .error e
  | .ok (inc, exp, cats) =>
    match monthlySeries db (resolveMonth month t).1 (resolveMonth month t).2 with
    | .error e => .error e
    | .ok (ib, eb) =>
      .ok { transactions := transactions
            income := inc
            expense := exp
            expenseCategories := cats.map Prod.fst
            expenseCatVals := expenseCatValues cats
            incomeLabels := List.range' 1
              (daysInMonth (resolveMonth month t).1.toNat (resolveMonth month t).2.toNat)
            incomeValues := ib.map round2
            expenseValues := eb.map round2
            display := displayMonth month (resolveMonth month t).1 (resolveMonth month t).2 t }

/-- The income total as the template's summary bar shows it:
`'%.2f'|format(totals['income'])`. -/
def shownIncome (p : Payload) : ℚ := round2 p.income

/-- The expense total as the template's summary bar shows it:
`'%.2f'|format(totals['expense'])`. -/
def shownExpense (p : Payload) : ℚ := round2 p.expense

/-! ## Derived definitions and concrete inputs used by the claims -/

/-- The category-side acceptance of `fetch_transactions` for a given
`category_query` argument. -/
def catPass (q : Option String) (r : TxRow) : Bool :=
  match q with
  | none => true
  | some cq => if cq = "" then true else catMatch cq r

/-- Is this row an income row? -/
def isIncomeRow (t : TxRow) : Bool := t.type == "income"

/-- Is this row an expense row? -/
def isExpenseRow (t : TxRow) : Bool := t.type == "expense"

/-- The parsed amount of a row (0 as a don't-care for unparseable
amounts; the lemmas below use it only for rows whose amount parses). -/
def pyAmt (t : TxRow) : ℚ := (pyFloat t.amount).getD 0

/-- Exact (unrounded) income total of a row sequence. -/
def sumIncome (ts : List TxRow) : ℚ := ((ts.filter isIncomeRow).map pyAmt).sum

/-- Exact (unrounded) expense total of a row sequence. -/
def sumExpense (ts : List TxRow) : ℚ := ((ts.filter isExpenseRow).map pyAmt).sum

/-- Exact (unrounded) expense total of one category. -/
def sumCat (ts : List TxRow) (c : String) : ℚ :=
  ((ts.filter fun t => isExpenseRow t && t.category == c).map pyAmt).sum

/-- The category map the loop builds: fold of `addCat` over the expense
rows. -/
def catFold (m : List (String × ℚ)) (ts : List TxRow) : List (String × ℚ) :=
  ts.foldl (fun acc t =>
    if t.type == "expense" then addCat acc t.category (pyAmt t) else acc) m

/-- Sum of all values stored in a category map. -/
def valsSum (m : List (String × ℚ)) : ℚ := (m.map Prod.snd).sum

/-- A stored row whose `amount` column holds non-numeric text. -/
def badAmountRow : TxRow :=
  ⟨1, "expense", "Food", .text "abc", "2024-03-05", none⟩

/-- A stored row with a negative numeric amount. -/
def negAmountRow : TxRow :=
  ⟨2, "income", "Salary", .num (-5), "2024-03-05", none⟩

/-- A small well-formed row sequence (all amounts numeric). -/
def exRows : List TxRow :=
  [⟨1, "income", "Salary", .num 1000, "2024-03-01", none⟩,
   ⟨2, "expense", "Food", .num (3/2), "2024-03-05", none⟩,
   ⟨3, "expense", "food", .num (1/2), "2024-03-20", none⟩]

/-- Two stored rows sharing a date, in insertion (rowid) order. -/
def tieRow1 : TxRow := ⟨1, "income", "A", .num 1, "2024-01-01", none⟩

/-- The later-inserted row with the same date as `tieRow1`. -/
def tieRow2 : TxRow := ⟨2, "income", "B", .num 1, "2024-01-01", none⟩

/-- Two expense rows of 0.004 in distinct categories. -/
def tinyRows : List TxRow :=
  [⟨1, "expense", "A", .num (1/250), "2024-03-01", none⟩,
   ⟨2, "expense", "B", .num (1/250), "2024-03-02", none⟩]

/-- The payload of the `index` view on an empty store for February
2024. -/
def c9Pay : Payload :=
  { transactions := []
    income := 0
    expense := 0
    expenseCategories := []
    expenseCatVals := []
    incomeLabels := List.range' 1 29
    incomeValues := (List.replicate 29 0).map round2
    expenseValues := (List.replicate 29 0).map round2
    display := displayMonth "" 2024 2 ⟨2024, 2⟩ }


/-! ## Properties of the byte-wise order -/

theorem bytesLe_refl (a : List Char) : bytesLe a a = true := by
  induction a with
  | nil => rfl
  | cons c l ih => simp [bytesLe, ih]

theorem bytesLe_nil {a : List Char} : bytesLe a [] = true ↔ a = [] := by
  cases a <;> simp [bytesLe]

theorem bytesLe_trans {a b c : List Char} (h1 : bytesLe a b = true)
    (h2 : bytesLe b c = true) : bytesLe a c = true := by
  induction a generalizing b c with
  | nil => simp [bytesLe]
  | cons x xs ih =>
    cases b with
    | nil => simp [bytesLe] at h1
    | cons y ys =>
      cases c with
      | nil => simp [bytesLe] at h2
      | cons z zs =>
        simp only [bytesLe, Bool.or_eq_true, decide_eq_true_eq, Bool.and_eq_true,
          beq_iff_eq] at h1 h2 ⊢
        rcases h1 with h1 | ⟨rfl, h1⟩
        · rcases h2 with h2 | ⟨rfl, h2⟩
          · exact Or.inl (lt_trans h1 h2)
          · exact Or.inl h1
        · rcases h2 with h2 | ⟨rfl, h2⟩
          · exact Or.inl h2
          · exact Or.inr ⟨rfl, ih h1 h2⟩

theorem bytesLe_total (a b : List Char) : bytesLe a b = true ∨ bytesLe b a = true := by
  induction a generalizing b with
  | nil => exact Or.inl rfl
  | cons x xs ih =>
    cases b with
    | nil => exact Or.inr rfl
    | cons y ys =>
      simp only [bytesLe, Bool.or_eq_true, decide_eq_true_eq, Bool.and_eq_true,
        beq_iff_eq]
      rcases lt_trichotomy x y with h | rfl | h
      · exact Or.inl (Or.inl h)
      · rcases ih ys with h | h
        · exact Or.inl (Or.inr ⟨rfl, h⟩)
        · exact Or.inr (Or.inr ⟨rfl, h⟩)
      · exact Or.inr (Or.inl h)

theorem bytesLe_antisymm {a b : List Char} (h1 : bytesLe a b = true)
    (h2 : bytesLe b a = true) : a = b := by
  induction a generalizing b with
  | nil =>
    cases b with
    | nil => rfl
    | cons y ys => simp [bytesLe] at h2
  | cons x xs ih =>
    cases b with
    | nil => simp [bytesLe] at h1
    | cons y ys =>
      simp only [bytesLe, Bool.or_eq_true, decide_eq_true_eq, Bool.and_eq_true,
        beq_iff_eq] at h1 h2
      rcases h1 with h1 | ⟨rfl, h1⟩
      · rcases h2 with h2 | ⟨rfl, h2⟩
        · exact absurd (lt_trans h1 h2) (lt_irrefl _)
        · exact absurd h1 (lt_irrefl _)
      · rcases h2 with h2 | ⟨_, h2⟩
        · exact absurd h2 (lt_irrefl _)
        · rw [ih h1 h2]

/-- A string sandwiched between two strings with a common prefix carries
that prefix. -/
theorem bytesLe_sandwich {p u v s : List Char} (h1 : bytesLe (p ++ u) s = true)
    (h2 : bytesLe s (p ++ v) = true) : ∃ w, s = p ++ w := by
  induction p generalizing s with
  | nil => exact ⟨s, rfl⟩
  | cons c p ih =>
    cases s with
    | nil => simp [bytesLe] at h1
    | cons c' s =>
      simp only [List.cons_append, bytesLe, Bool.or_eq_true, decide_eq_true_eq,
        Bool.and_eq_true, beq_iff_eq] at h1 h2
      rcases h1 with h1 | ⟨rfl, h1⟩
      · rcases h2 with h2 | ⟨rfl, _⟩
        · exact absurd (lt_trans h1 h2) (lt_irrefl _)
        · exact absurd h1 (lt_irrefl _)
      · rcases h2 with h2 | ⟨_, h2⟩
        · exact absurd h2 (lt_irrefl _)
        · obtain ⟨w, rfl⟩ := ih h1 h2
          exact ⟨w, rfl⟩

/-! ## Digit and padding lemmas -/

theorem digitVal_digitChar {k : ℕ} (h : k < 10) : digitVal (digitChar k) = k := by
  interval_cases k <;> decide

theorem natVal_pad2 {m : ℕ} (h : m ≤ 99) : natVal (pad2 m) = m := by
  simp only [natVal, pad2, List.foldl, digitVal_digitChar (Nat.mod_lt _ (by norm_num))]
  omega

theorem natVal_pad4 {y : ℕ} (h : y ≤ 9999) : natVal (pad4 y) = y := by
  simp only [natVal, pad4, List.foldl, digitVal_digitChar (Nat.mod_lt _ (by norm_num))]
  omega

/-- Eliminate a successful `datetime.fromisoformat(...).day`: the string
has the `YYYY-MM-DD…` shape and the day is valid for the string's own
year and month. -/
theorem parseIsoDay_elim {s : String} {d : ℕ} (h : parseIsoDay s = some d) :
    ∃ y1 y2 y3 y4 m1 m2 d1 d2 rest,
      s.data = y1 :: y2 :: y3 :: y4 :: '-' :: m1 :: m2 :: '-' :: d1 :: d2 :: rest ∧
      d = natVal [d1, d2] ∧ 1 ≤ d ∧
      d ≤ daysInMonth (natVal [y1, y2, y3, y4]) (natVal [m1, m2]) := by
  unfold parseIsoDay at h
  split at h
  case h_2 => exact absurd h (by simp)
  case h_1 y1 y2 y3 y4 m1 m2 d1 d2 rest heq =>
    split at h
    case isFalse => exact absurd h (by simp)
    case isTrue hg =>
      simp only [Bool.and_eq_true, decide_eq_true_eq] at hg
      obtain ⟨⟨_, _⟩, hd1, hd2⟩ := hg
      obtain rfl : natVal [d1, d2] = d := by injection h
      exact ⟨y1, y2, y3, y4, m1, m2, d1, d2, rest, heq, rfl, hd1, hd2⟩

/-! ## Properties of the Filter Engine -/

instance : IsTrans TxRow rowBefore := by
  constructor
  intro a b c hab hbc
  rcases hab with ⟨e1, i1⟩ | ⟨n1, l1⟩
  · rcases hbc with ⟨e2, i2⟩ | ⟨n2, l2⟩
    · exact Or.inl ⟨e1.trans e2, le_trans i2 i1⟩
    · refine Or.inr ⟨?_, ?_⟩
      · rw [e1]; exact n2
      · rw [e1]; exact l2
  · rcases hbc with ⟨e2, i2⟩ | ⟨n2, l2⟩
    · refine Or.inr ⟨?_, ?_⟩
      · rw [← e2]; exact n1
      · rw [← e2]; exact l1
    · refine Or.inr ⟨?_, bytesLe_trans l2 l1⟩
      intro h
      rw [← h] at l2
      exact n1 (String.ext (bytesLe_antisymm l2 l1))

instance : IsTotal TxRow rowBefore := by
  constructor
  intro a b
  by_cases h : a.date = b.date
  · rcases Nat.le_total b.id a.id with hi | hi
    · exact Or.inl (Or.inl ⟨h, hi⟩)
    · exact Or.inr (Or.inl ⟨h.symm, hi⟩)
  · rcases bytesLe_total a.date.data b.date.data with hl | hl
    · exact Or.inr (Or.inr ⟨fun e => h e.symm, hl⟩)
    · exact Or.inl (Or.inr ⟨h, hl⟩)

/-- Membership in the result of `fetch_transactions`: exactly the stored
rows that pass the date bounds and the category filter. -/
theorem mem_fetch {db : List TxRow} {f t q : Option String} {r : TxRow} :
    r ∈ fetchTransactions db f t q ↔
      r ∈ db ∧ passFrom f r.date = true ∧ passTo t r.date = true ∧
        catPass q r = true := by
  unfold fetchTransactions
  have hsort : ∀ x : TxRow,
      x ∈ List.insertionSort rowBefore
        (db.filter fun r => passFrom f r.date && passTo t r.date) ↔
      x ∈ db ∧ passFrom f x.date = true ∧ passTo t x.date = true := by
    intro x
    rw [(List.perm_insertionSort rowBefore _).mem_iff, List.mem_filter,
      Bool.and_eq_true]
  match q with
  | none => simpa [catPass] using hsort r
  | some cq =>
    by_cases hcq : cq = ""
    · simp only [hcq, if_pos rfl, catPass]
      simpa using hsort r
    · simp only [catPass, if_neg hcq, List.mem_filter, hsort r, and_assoc]

/-- The result of `fetch_transactions` is sorted in emission order:
dates descending, ties by rowid descending. -/
theorem fetch_sorted (db : List TxRow) (f t q : Option String) :
    (fetchTransactions db f t q).Sorted rowBefore := by
  unfold fetchTransactions
  have hs : (List.insertionSort rowBefore
      (db.filter fun r => passFrom f r.date && passTo t r.date)).Sorted rowBefore :=
    List.sorted_insertionSort rowBefore _
  match q with
  | none => exact hs
  | some cq =>
    by_cases hcq : cq = ""
    · simpa [hcq] using hs
    · simp only [if_neg hcq]
      exact hs.sublist (List.filter_sublist _)

/-! ## Properties of the Totals Aggregator -/

theorem lookupCat_addCat (m : List (String × ℚ)) (c c' : String) (a : ℚ) :
    lookupCat (addCat m c a) c' = lookupCat m c' + (if c = c' then a else 0) := by
  induction m with
  | nil =>
    simp only [addCat, lookupCat]
    split <;> simp_all [lookupCat]
  | cons p m ih =>
    obtain ⟨c0, v0⟩ := p
    simp only [addCat]
    by_cases h0 : c0 = c
    · subst h0
      rw [if_pos rfl]
      simp only [lookupCat]
      split <;> simp_all
    · rw [if_neg h0]
      simp only [lookupCat]
      by_cases h1 : c0 = c'
      · rw [if_pos h1, if_pos h1, if_neg fun hcc => h0 (h1.trans hcc.symm)]
        simp
      · rw [if_neg h1, if_neg h1]
        exact ih

theorem valsSum_addCat (m : List (String × ℚ)) (c : String) (a : ℚ) :
    valsSum (addCat m c a) = valsSum m + a := by
  induction m with
  | nil => simp [addCat, valsSum]
  | cons p m ih =>
    obtain ⟨c0, v0⟩ := p
    simp only [addCat]
    split
    · simp [valsSum]
      ring_nf
    · simp only [valsSum, List.map_cons, List.sum_cons] at ih ⊢
      rw [ih]
      ring_nf

/-- When every amount parses, the totals loop completes and accumulates
the exact group sums on top of its starting state. -/
theorem totalsLoop_ok {ts : List TxRow}
    (h : ∀ t ∈ ts, (pyFloat t.amount).isSome = true) (i e : ℚ)
    (m : List (String × ℚ)) :
    totalsLoop ts (i, e, m) =
      .ok (i + sumIncome ts, e + sumExpense ts, catFold m ts) := by
  induction ts generalizing i e m with
  | nil => simp [totalsLoop, sumIncome, sumExpense, catFold]
  | cons t ts ih =>
    have hp : (pyFloat t.amount).isSome = true := h t (by simp)
    obtain ⟨a, ha⟩ := Option.isSome_iff_exists.mp hp
    have hrest : ∀ t' ∈ ts, (pyFloat t'.amount).isSome = true := fun t' ht' =>
      h t' (List.mem_cons_of_mem _ ht')
    have hpa : pyAmt t = a := by simp [pyAmt, ha]
    simp only [totalsLoop, ha]
    by_cases hinc : t.type = "income"
    · rw [if_pos hinc, ih hrest]
      have h1 : isIncomeRow t = true := by simp [isIncomeRow, hinc]
      have h2 : isExpenseRow t = false := by simp [isExpenseRow, hinc]
      simp only [sumIncome, sumExpense, catFold, List.filter_cons, h1, h2,
        List.foldl_cons, List.map_cons, List.sum_cons, hpa, if_true,
        Bool.false_eq_true, if_false, hinc]
      have : ¬((("income" : String) == "expense") = true) := by decide
      rw [if_neg this]
      congr 1
      ring
    · rw [if_neg hinc]
      by_cases hexp : t.type = "expense"
      · rw [if_pos hexp, ih hrest]
        have h1 : isIncomeRow t = false := by simp [isIncomeRow, hexp]
        have h2 : isExpenseRow t = true := by simp [isExpenseRow, hexp]
        simp only [sumIncome, sumExpense, catFold, List.filter_cons, h1, h2,
          List.foldl_cons, List.map_cons, List.sum_cons, hpa, if_true,
          Bool.false_eq_true, if_false, hexp]
        have : ((("expense" : String) == "expense") = true) := by decide
        rw [if_pos this]
        congr 2
        ring
      · rw [if_neg hexp, ih hrest]
        have h1 : isIncomeRow t = false := by simp [isIncomeRow, hinc]
        have h2 : isExpenseRow t = false := by simp [isExpenseRow, hexp]
        have h3 : ¬((t.type == "expense") = true) := by simp [hexp]
        simp only [sumIncome, sumExpense, catFold, List.filter_cons, h1, h2,
          List.foldl_cons, Bool.false_eq_true, if_false]
        rw [if_neg h3]

/-- The totals loop completes exactly when every amount in the sequence
parses as a float. -/
theorem totalsLoop_ok_iff {ts : List TxRow} {acc : ℚ × ℚ × List (String × ℚ)} :
    (∃ r, totalsLoop ts acc = .ok r) ↔
      ∀ t ∈ ts, (pyFloat t.amount).isSome = true := by
  induction ts generalizing acc with
  | nil => simp [totalsLoop]
  | cons t ts ih =>
    obtain ⟨i, e, m⟩ := acc
    rw [List.forall_mem_cons]
    cases hpf : pyFloat t.amount with
    | none =>
      simp only [totalsLoop, hpf, Option.isSome_none, Bool.false_eq_true,
        false_and, iff_false]
      rintro ⟨r, hr⟩
      exact Except.noConfusion hr
    | some a =>
      simp only [totalsLoop, hpf, Option.isSome_some, true_and]
      split
      · exact ih
      · split
        · exact ih
        · exact ih

theorem lookupCat_catFold (m : List (String × ℚ)) (ts : List TxRow)
    (c : String) :
    lookupCat (catFold m ts) c = lookupCat m c + sumCat ts c := by
  induction ts generalizing m with
  | nil => simp [catFold, sumCat]
  | cons t ts ih =>
    simp only [catFold, List.foldl_cons] at ih ⊢
    by_cases he : (t.type == "expense") = true
    · rw [if_pos he]
      rw [ih (addCat m t.category (pyAmt t)), lookupCat_addCat]
      have hex : isExpenseRow t = true := he
      simp only [sumCat, List.filter_cons, hex, Bool.true_and]
      by_cases hc : t.category = c
      · have : (t.category == c) = true := by simp [hc]
        rw [if_pos hc, this]
        simp only [if_true, List.map_cons, List.sum_cons]
        ring
      · have : ¬((t.category == c) = true) := by simp [hc]
        rw [if_neg hc, if_neg this]
        ring
    · rw [if_neg he]
      rw [ih m]
      have hex : isExpenseRow t = false := by
        simpa [isExpenseRow] using he
      simp only [sumCat, List.filter_cons, hex, Bool.false_and,
        Bool.false_eq_true, if_false]

theorem valsSum_catFold (m : List (String × ℚ)) (ts : List TxRow) :
    valsSum (catFold m ts) = valsSum m + sumExpense ts := by
  induction ts generalizing m with
  | nil => simp [catFold, sumExpense]
  | cons t ts ih =>
    simp only [catFold, List.foldl_cons] at ih ⊢
    by_cases he : (t.type == "expense") = true
    · rw [if_pos he, ih (addCat m t.category (pyAmt t)), valsSum_addCat]
      have hex : isExpenseRow t = true := he
      simp only [sumExpense, List.filter_cons, hex, if_true, List.map_cons,
        List.sum_cons]
      ring
    · rw [if_neg he, ih m]
      have hex : isExpenseRow t = false := by
        simpa [isExpenseRow] using he
      simp only [sumExpense, List.filter_cons, hex, Bool.false_eq_true, if_false]

/-! ## Properties of the Monthly Series Builder -/

theorem listAdd_ok_length {l l' : List ℚ} {i : ℕ} {a : ℚ}
    (h : listAdd l i a = .ok l') : l'.length = l.length := by
  unfold listAdd at h
  split at h
  · cases h
    exact List.length_set l i _
  · exact absurd h (by simp)

theorem listAdd_err {l : List ℚ} {i : ℕ} {a : ℚ} {e : PyErr}
    (h : listAdd l i a = .error e) : e = .indexError ∧ ¬ i < l.length := by
  unfold listAdd at h
  split at h
  · exact absurd h (by simp)
  · cases h
    exact ⟨rfl, by assumption⟩

theorem listAdd_isOk {l : List ℚ} {i : ℕ} {a : ℚ} (h : i < l.length) :
    ∃ l', listAdd l i a = .ok l' ∧ l'.length = l.length :=
  ⟨l.set i (l.get ⟨i, h⟩ + a), by unfold listAdd; rw [dif_pos h],
    List.length_set l i _⟩

/-- The per-day loop preserves the lengths of both accumulator arrays. -/
theorem monthlyLoop_lengths {ts : List TxRow} {ib eb ib' eb' : List ℚ}
    (h : monthlyLoop ts ib eb = .ok (ib', eb')) :
    ib'.length = ib.length ∧ eb'.length = eb.length := by
  induction ts generalizing ib eb with
  | nil =>
    simp only [monthlyLoop] at h
    cases h
    exact ⟨rfl, rfl⟩
  | cons tx ts ih =>
    simp only [monthlyLoop] at h
    split at h
    · exact ih h
    · split at h
      · exact absurd h (by simp)
      · split at h
        · rename_i heq
          split at h
          · exact absurd h (by simp)
          · rename_i l' hadd
            obtain ⟨h1, h2⟩ := ih h
            exact ⟨h1.trans (listAdd_ok_length hadd), h2⟩
        · split at h
          · split at h
            · exact absurd h (by simp)
            · rename_i l' hadd
              obtain ⟨h1, h2⟩ := ih h
              exact ⟨h1, h2.trans (listAdd_ok_length hadd)⟩
          · exact ih h

/-- The per-day loop never raises `IndexError` when every parseable date
in the working set has its day within both array lengths. -/
theorem monthlyLoop_no_idx {ts : List TxRow} {ib eb : List ℚ}
    (hd : ∀ tx ∈ ts, ∀ d, parseIsoDay tx.date = some d →
      d - 1 < ib.length ∧ d - 1 < eb.length) :
    monthlyLoop ts ib eb ≠ .error .indexError := by
  induction ts generalizing ib eb with
  | nil => simp [monthlyLoop]
  | cons tx ts ih =>
    have hdrest : ∀ tx' ∈ ts, ∀ d, parseIsoDay tx'.date = some d →
        d - 1 < ib.length ∧ d - 1 < eb.length := fun tx' h' =>
      hd tx' (List.mem_cons_of_mem _ h')
    simp only [monthlyLoop]
    split
    · exact ih hdrest
    · rename_i d hparse
      split
      · simp
      · split
        · obtain ⟨hib, heb⟩ := hd tx (List.mem_cons_self _ _) d hparse
          obtain ⟨ib', hadd, hlen⟩ := listAdd_isOk hib
          rw [hadd]
          refine ih fun tx' h' d' hp' => ?_
          rw [hlen]
          exact hdrest tx' h' d' hp'
        · split
          · obtain ⟨hib, heb⟩ := hd tx (List.mem_cons_self _ _) d hparse
            obtain ⟨eb', hadd, hlen⟩ := listAdd_isOk heb
            rw [hadd]
            refine ih fun tx' h' d' hp' => ?_
            rw [hlen]
            exact hdrest tx' h' d' hp'
          · exact ih hdrest

/-- The per-day loop never raises `ValueError` when every amount in the
working set parses. -/
theorem monthlyLoop_no_val {ts : List TxRow} {ib eb : List ℚ}
    (h : ∀ tx ∈ ts, (pyFloat tx.amount).isSome = true) :
    monthlyLoop ts ib eb ≠ .error .valueError := by
  induction ts generalizing ib eb with
  | nil => simp [monthlyLoop]
  | cons tx ts ih =>
    have hrest : ∀ tx' ∈ ts, (pyFloat tx'.amount).isSome = true := fun tx' h' =>
      h tx' (List.mem_cons_of_mem _ h')
    simp only [monthlyLoop]
    split
    · exact ih hrest
    · split
      · rename_i hpf
        have hs := h tx (List.mem_cons_self _ _)
        rw [hpf] at hs
        simp at hs
      · split
        · split
          · rename_i e hadd
            have he := (listAdd_err hadd).1
            subst he
            decide
          · exact ih hrest
        · split
          · split
            · rename_i e hadd
              have he := (listAdd_err hadd).1
              subst he
              decide
            · exact ih hrest
          · exact ih hrest

theorem isoChars_split (y m d : ℕ) :
    isoChars y m d = (pad4 y ++ '-' :: (pad2 m ++ ['-'])) ++ pad2 d := by
  simp [isoChars, List.append_assoc]

/-- Every row the month query returns whose date parses has its
day-of-month between 1 and that month's day count. -/
theorem monthFetch_day_bound (db : List TxRow) {y m : ℕ}
    (hy : y ≤ 9999) (hm : m ≤ 12) :
    ∀ tx ∈ monthFetch db y m, ∀ d, parseIsoDay tx.date = some d →
      1 ≤ d ∧ d ≤ daysInMonth y m := by
  intro tx htx d hparse
  obtain ⟨-, hfrom, hto, -⟩ := mem_fetch.mp (by exact htx)
  have hne1 : (⟨isoChars y m 1⟩ : String) ≠ "" := by
    intro h
    have := congrArg String.data h
    simp [isoChars, pad4] at this
  have hne2 : (⟨isoChars y m (daysInMonth y m)⟩ : String) ≠ "" := by
    intro h
    have := congrArg String.data h
    simp [isoChars, pad4] at this
  simp only [passFrom, if_neg hne1] at hfrom
  simp only [passTo, if_neg hne2] at hto
  rw [isoChars_split] at hfrom hto
  obtain ⟨w, hw⟩ := bytesLe_sandwich hfrom hto
  obtain ⟨y1, y2, y3, y4, m1, m2, d1, d2, rest, heq, hdval, hd1, hd2⟩ :=
    parseIsoDay_elim hparse
  rw [heq] at hw
  simp only [pad4, pad2, List.cons_append, List.nil_append,
    List.cons.injEq, true_and, and_true] at hw
  obtain ⟨rfl, rfl, rfl, rfl, rfl, rfl, -⟩ := hw
  rw [show natVal [digitChar (y / 1000 % 10), digitChar (y / 100 % 10),
      digitChar (y / 10 % 10), digitChar (y % 10)] = y from natVal_pad4 hy,
    show natVal [digitChar (m / 10 % 10), digitChar (m % 10)] = m from
      natVal_pad2 (le_trans hm (by norm_num))] at hd2
  exact ⟨hd1, hd2⟩

/-- Invert a completed totals loop run from the zero state: the final
state is exactly the triple of exact group sums. -/
theorem totalsLoop_ok_elim {ts : List TxRow} {inc exp : ℚ}
    {m : List (String × ℚ)}
    (h : totalsLoop ts (0, 0, []) = .ok (inc, exp, m)) :
    inc = sumIncome ts ∧ exp = sumExpense ts ∧ m = catFold [] ts := by
  have hall : ∀ t ∈ ts, (pyFloat t.amount).isSome = true :=
    totalsLoop_ok_iff.mp ⟨_, h⟩
  have h2 := totalsLoop_ok hall 0 0 []
  rw [h] at h2
  have h3 := Except.ok.inj h2
  rw [Prod.mk.injEq, Prod.mk.injEq] at h3
  obtain ⟨ha, hb, hc⟩ := h3
  exact ⟨by rw [ha, zero_add], by rw [hb, zero_add], hc⟩

/-! ## Concrete inputs used by witnesses and counterexamples -/

theorem exRows_loop :
    totalsLoop exRows (0, 0, []) =
      .ok (1000, 2, [("Food", 3/2), ("food", 1/2)]) := by
  simp [exRows, totalsLoop, pyFloat, addCat]
  norm_num

/-! ## The claims -/

/-- C1 (corrected).  The claim says the totals loop never raises on a
record whose amount is non-numeric or non-positive and counts such a
record as 0.0.  In the code `amt = float(t['amount'])` has no handler in
either loop, so a non-numeric amount raises, and a non-positive numeric
amount is added at face value.  Amended: when every amount in the
sequence parses as a float, the totals loop completes with each record
contributing its parsed amount (non-positive amounts included, at their
actual value), and the monthly per-day loop never raises `ValueError`;
a record with an unparseable amount makes both loops raise. -/
theorem c1_amended {ts : List TxRow}
    (h : ∀ t ∈ ts, (pyFloat t.amount).isSome = true) :
    (∃ m, totalsLoop ts (0, 0, []) = .ok (sumIncome ts, sumExpense ts, m)) ∧
    ∀ ib eb : List ℚ, monthlyLoop ts ib eb ≠ .error .valueError := by
  constructor
  · exact ⟨catFold [] ts, by simpa using totalsLoop_ok h 0 0 []⟩
  · exact fun ib eb => monthlyLoop_no_val h

theorem c1_witness :
    (∀ t ∈ exRows, (pyFloat t.amount).isSome = true) ∧
    ((∃ m, totalsLoop exRows (0, 0, []) =
        .ok (sumIncome exRows, sumExpense exRows, m)) ∧
      ∀ ib eb : List ℚ, monthlyLoop exRows ib eb ≠ .error .valueError) :=
  ⟨by decide, c1_amended (by decide)⟩

/-- C1, counterexample to the claim as stated: a record whose amount
is the text `"abc"` makes both loops raise `ValueError` instead of
contributing `0.0`, and a record with amount `-5` contributes `-5`, not
`0.0`, to the income total. -/
theorem c1_counterexample :
    totalsLoop [badAmountRow] (0, 0, []) = .error .valueError ∧
    monthlyLoop [badAmountRow] (List.replicate 31 0) (List.replicate 31 0) =
      .error .valueError ∧
    totalsLoop [negAmountRow] (0, 0, []) = .ok (-5, 0, []) ∧
    (-5 : ℚ) ≠ 0 := by
  refine ⟨by decide, by decide, ?_, by norm_num⟩
  simp [totalsLoop, negAmountRow, pyFloat]

/-- C2 (confirmed).  When the `month` parameter is absent (empty) or
fails to parse as two integers, the builder resolves to the current
calendar year and month — the same resolution as for an absent
parameter — and the resolution itself never raises (it is a total
function). -/
theorem c2 (month : String) (t : Today)
    (h : month = "" ∨ monthParseFails month = true) :
    resolveMonth month t = ((t.year : ℤ), (t.month : ℤ)) ∧
    resolveMonth month t = resolveMonth "" t := by
  have hbase : resolveMonth "" t = ((t.year : ℤ), (t.month : ℤ)) := by
    simp [resolveMonth]
  have h1 : resolveMonth month t = ((t.year : ℤ), (t.month : ℤ)) := by
    by_cases hm : month = ""
    · rw [hm, hbase]
    · rcases h with h | h
      · exact absurd h hm
      · unfold resolveMonth
        rw [if_neg hm]
        unfold monthParseFails at h
        split
        · rename_i a b heq
          rw [heq] at h
          simp only [Bool.or_eq_true, Option.isNone_iff_eq_none] at h
          rcases h with h | h
          · rw [h]
          · rw [h]
            cases pyInt a <;> rfl
        · rfl
  exact ⟨h1, h1.trans hbase.symm⟩

theorem c2_witness :
    ("not-a-month" = "" ∨ monthParseFails "not-a-month" = true) ∧
    resolveMonth "not-a-month" ⟨2025, 7⟩ = ((2025 : ℤ), (7 : ℤ)) ∧
    resolveMonth "not-a-month" ⟨2025, 7⟩ = resolveMonth "" ⟨2025, 7⟩ :=
  ⟨Or.inr (by decide), c2 "not-a-month" ⟨2025, 7⟩ (Or.inr (by decide))⟩

/-- C4 (confirmed).  For a query that is non-empty after trimming,
`fetch_transactions` keeps a record iff the trimmed case-folded query is
a substring of the trimmed case-folded category; the fold covers
non-Latin scripts, as the Cyrillic examples state. -/
theorem c4 (db : List TxRow) (f t : Option String) (r : TxRow) (cq : String)
    (h : trimWs cq.data ≠ []) :
    (r ∈ fetchTransactions db f t (some cq) ↔
      r ∈ fetchTransactions db f t none ∧
      containsSub (caseFold (trimWs cq.data))
        (caseFold (trimWs r.category.data)) = true) ∧
    (∀ row : TxRow, row.category = "Кафе" →
      catMatch "каф" row = true ∧ catMatch "КАФ" row = true ∧
      catMatch "афе" row = true) ∧
    (∀ row : TxRow, row.category = "Groceries" →
      catMatch "GRO" row = true ∧ catMatch "eries" row = true) := by
  refine ⟨?_, ?_, ?_⟩
  · have hcq : cq ≠ "" := by
      intro he
      apply h
      rw [he]
      decide
    rw [mem_fetch, mem_fetch]
    simp only [catPass, if_neg hcq, catMatch]
    tauto
  · intro row hcat
    refine ⟨?_, ?_, ?_⟩ <;> · simp only [catMatch, hcat]; decide
  · intro row hcat
    refine ⟨?_, ?_⟩ <;> · simp only [catMatch, hcat]; decide

theorem c4_witness :
    trimWs " КАФ ".data ≠ [] ∧
    ((⟨1, "expense", "Кафе", .num 1, "2024-01-01", none⟩ : TxRow) ∈
        fetchTransactions [⟨1, "expense", "Кафе", .num 1, "2024-01-01", none⟩]
          none none (some " КАФ ") ↔
      (⟨1, "expense", "Кафе", .num 1, "2024-01-01", none⟩ : TxRow) ∈
        fetchTransactions [⟨1, "expense", "Кафе", .num 1, "2024-01-01", none⟩]
          none none none ∧
      containsSub (caseFold (trimWs " КАФ ".data))
        (caseFold (trimWs ("Кафе" : String).data)) = true) :=
  ⟨by decide,
    (c4 [⟨1, "expense", "Кафе", .num 1, "2024-01-01", none⟩] none none
      ⟨1, "expense", "Кафе", .num 1, "2024-01-01", none⟩ " КАФ " (by decide)).1⟩

/-- C5 (corrected).  The claim says same-date records appear in a
stable insertion/id order.  The query's `ORDER BY date DESC` is served by
a reverse scan of `idx_transactions_date`, which emits equal-date rows by
rowid descending — the reverse of insertion order.  Amended: the output
is sorted by date descending, and records with equal dates appear in
descending id order. -/
theorem c5_amended (db : List TxRow) (f t q : Option String) :
    (fetchTransactions db f t q).Sorted rowBefore ∧
    (fetchTransactions db f t q).Pairwise
      (fun a b => bytesLe b.date.data a.date.data = true) := by
  refine ⟨fetch_sorted db f t q, (fetch_sorted db f t q).imp ?_⟩
  intro a b hab
  rcases hab with ⟨he, -⟩ | ⟨-, hl⟩
  · rw [he]
    exact bytesLe_refl _
  · exact hl

/-- C5, counterexample to the claim as stated: two same-date rows
inserted as ids 1, 2 are emitted as `[id 2, id 1]`, not in insertion/id
order. -/
theorem c5_counterexample :
    fetchTransactions [tieRow1, tieRow2] none none none = [tieRow2, tieRow1] ∧
    fetchTransactions [tieRow1, tieRow2] none none none ≠ [tieRow1, tieRow2] ∧
    tieRow1.id < tieRow2.id ∧ tieRow1.date = tieRow2.date := by
  refine ⟨by decide, ?_, by decide, by decide⟩
  intro hc
  rw [(by decide :
    fetchTransactions [tieRow1, tieRow2] none none none = [tieRow2, tieRow1])] at hc
  exact absurd hc (by decide)

/-- C6 (confirmed).  Filter monotonicity: widening the inclusive
date range (`A' ≤ A` and `B ≤ B'` in the byte order; a present upper
bound stays present) keeps every previously returned record in the
result. -/
theorem c6 (db : List TxRow) (A B A' B' : String) (q : Option String)
    (hA : bytesLe A'.data A.data = true) (hB : bytesLe B.data B'.data = true)
    (hB0 : B = "" → B' = "") (r : TxRow)
    (hr : r ∈ fetchTransactions db (some A) (some B) q) :
    r ∈ fetchTransactions db (some A') (some B') q := by
  rw [mem_fetch] at hr ⊢
  obtain ⟨hdb, hf, ht, hc⟩ := hr
  refine ⟨hdb, ?_, ?_, hc⟩
  · simp only [passFrom] at hf ⊢
    by_cases hA' : A' = ""
    · rw [if_pos hA']
    · rw [if_neg hA']
      by_cases hA0 : A = ""
      · rw [hA0] at hA
        have hAnil : A'.data = [] := bytesLe_nil.mp (by exact hA)
        exact absurd (String.ext hAnil) hA'
      · rw [if_neg hA0] at hf
        exact bytesLe_trans hA hf
  · simp only [passTo] at ht ⊢
    by_cases hB' : B' = ""
    · rw [if_pos hB']
    · rw [if_neg hB']
      by_cases hBe : B = ""
      · exact absurd (hB0 hBe) hB'
      · rw [if_neg hBe] at ht
        exact bytesLe_trans ht hB

theorem c6_witness :
    (⟨1, "income", "A", .num 1, "2024-02-05", none⟩ : TxRow) ∈
      fetchTransactions [⟨1, "income", "A", .num 1, "2024-02-05", none⟩]
        (some "2024-01-01") (some "2024-12-31") none :=
  c6 [⟨1, "income", "A", .num 1, "2024-02-05", none⟩]
    "2024-02-01" "2024-02-10" "2024-01-01" "2024-12-31" none
    (by decide) (by decide) (by decide)
    ⟨1, "income", "A", .num 1, "2024-02-05", none⟩ (by decide)

/-- C3 (confirmed).  Every summed value the aggregator exposes — the
template-formatted income and expense totals and each per-category
value — is the 2-decimal rounding of the exact group sum, applied once
at the boundary; the accumulated state itself holds the exact, unrounded
sums. -/
theorem c3 {ts : List TxRow} {inc exp : ℚ} {m : List (String × ℚ)}
    (h : totalsLoop ts (0, 0, []) = .ok (inc, exp, m)) :
    round2 inc = round2 (sumIncome ts) ∧
    round2 exp = round2 (sumExpense ts) ∧
    expenseCatValues m = (m.map Prod.fst).map (fun c => round2 (sumCat ts c)) ∧
    inc = sumIncome ts ∧ exp = sumExpense ts ∧
    ∀ c, lookupCat m c = sumCat ts c := by
  obtain ⟨h1, h2, h3⟩ := totalsLoop_ok_elim h
  subst h1
  subst h2
  subst h3
  have hlook : ∀ c, lookupCat (catFold [] ts) c = sumCat ts c := by
    intro c
    rw [lookupCat_catFold]
    simp [lookupCat]
  refine ⟨rfl, rfl, ?_, rfl, rfl, hlook⟩
  unfold expenseCatValues
  exact List.map_congr_left fun c _ => by rw [hlook c]

theorem c3_witness :
    round2 1000 = round2 (sumIncome exRows) ∧
    round2 2 = round2 (sumExpense exRows) ∧
    expenseCatValues [("Food", 3/2), ("food", 1/2)] =
      ([(("Food" : String), (3 : ℚ)/2), ("food", 1/2)].map Prod.fst).map
        (fun c => round2 (sumCat exRows c)) ∧
    (1000 : ℚ) = sumIncome exRows ∧ (2 : ℚ) = sumExpense exRows ∧
    ∀ c, lookupCat [("Food", 3/2), ("food", 1/2)] c = sumCat exRows c :=
  c3 exRows_loop

/-- C7 (corrected).  The claim says the exposed (rounded) values of
`expenseByCategory` sum to the exposed expense total.  Rounding breaks
this: two expense rows of 0.004 round to per-category values 0 and 0,
while the expense total 0.008 is exposed as 0.01.  Amended: before
display rounding the equality is exact — the values held in the category
map always sum to the accumulated expense total. -/
theorem c7_amended {ts : List TxRow} {inc exp : ℚ} {m : List (String × ℚ)}
    (h : totalsLoop ts (0, 0, []) = .ok (inc, exp, m)) :
    valsSum m = exp := by
  obtain ⟨-, h2, h3⟩ := totalsLoop_ok_elim h
  subst h2
  subst h3
  rw [valsSum_catFold]
  simp [valsSum]

theorem c7_witness :
    valsSum [("Food", 3/2), ("food", 1/2)] = 2 :=
  c7_amended exRows_loop

/-- C7, counterexample to the claim as stated: on `tinyRows` the
exposed per-category values sum to 0, while the expense total is exposed
as 0.01 (and is 0.008 unrounded) — the claimed equality fails for the
exposed values. -/
theorem c7_counterexample :
    totalsLoop tinyRows (0, 0, []) =
      .ok (0, 1/125, [("A", 1/250), ("B", 1/250)]) ∧
    (expenseCatValues [("A", 1/250), ("B", 1/250)]).sum = 0 ∧
    round2 (1/125) = 1/100 ∧ ((1/125 : ℚ) ≠ 0 ∧ (1/100 : ℚ) ≠ 0) := by
  refine ⟨?_, ?_, ?_, by norm_num, by norm_num⟩
  · simp [tinyRows, totalsLoop, pyFloat, addCat]
    norm_num
  · simp only [expenseCatValues, List.map_cons, List.map_nil, lookupCat,
      List.sum_cons, List.sum_nil]
    norm_num [round2, rhe]
  · norm_num [round2, rhe]

/-- C8 (confirmed).  Whenever the builder produces its per-day
arrays, both have length equal to the resolved month's calendar day
count — 29 for February of a leap year, 28 otherwise. -/
theorem c8 {db : List TxRow} {year mon : ℤ} {ib eb : List ℚ}
    (h : monthlySeries db year mon = .ok (ib, eb)) :
    ib.length = daysInMonth year.toNat mon.toNat ∧
    eb.length = daysInMonth year.toNat mon.toNat ∧
    daysInMonth 2024 2 = 29 ∧ daysInMonth 2023 2 = 28 := by
  unfold monthlySeries at h
  split at h
  · obtain ⟨h1, h2⟩ := monthlyLoop_lengths h
    rw [List.length_replicate] at h1 h2
    exact ⟨h1, h2, by decide, by decide⟩
  · exact absurd h (by simp)

theorem c8_series :
    monthlySeries [] 2024 2 =
      .ok (List.replicate 29 0, List.replicate 29 0) := by
  decide

theorem c8_witness :
    (List.replicate 29 (0 : ℚ)).length =
      daysInMonth (2024 : ℤ).toNat (2 : ℤ).toNat ∧
    (List.replicate 29 (0 : ℚ)).length =
      daysInMonth (2024 : ℤ).toNat (2 : ℤ).toNat ∧
    daysInMonth 2024 2 = 29 ∧ daysInMonth 2023 2 = 28 :=
  c8 c8_series

/-- C9 (confirmed).  Noninterference: two runs of the `index` view
over the same store, month parameter and current date that differ only
in `from`, `to` or `q` produce identical `incomeValues` and
`expenseValues` series — the monthly chart is computed from the whole
resolved month, unfiltered. -/
theorem c9 {db : List TxRow} {f1 t1 f2 t2 : Option String} {q1 q2 : String}
    {month : String} {t : Today} {p1 p2 : Payload}
    (h1 : indexRoute db f1 t1 q1 month t = .ok p1)
    (h2 : indexRoute db f2 t2 q2 month t = .ok p2) :
    p1.incomeValues = p2.incomeValues ∧ p1.expenseValues = p2.expenseValues := by
  simp only [indexRoute] at h1 h2
  split at h1
  · exact absurd h1 (by simp)
  · split at h1
    · exact absurd h1 (by simp)
    · rename_i ib eb hms1
      split at h2
      · exact absurd h2 (by simp)
      · split at h2
        · rename_i e heq2
          rw [hms1] at heq2
          exact absurd heq2 (by simp)
        · rename_i ib2 eb2 heq2
          rw [hms1] at heq2
          have hpair := Except.ok.inj heq2
          injection hpair with hI hE
          subst hI
          subst hE
          obtain rfl := Except.ok.inj h1
          obtain rfl := Except.ok.inj h2
          exact ⟨rfl, rfl⟩

theorem c9_run1 : indexRoute [] none none "" "" ⟨2024, 2⟩ = .ok c9Pay := by
  rfl

theorem c9_run2 :
    indexRoute [] (some "2024-02-03") (some "2024-02-20") "zzz" "" ⟨2024, 2⟩ =
      .ok c9Pay := by
  rfl

theorem c9_witness :
    c9Pay.incomeValues = c9Pay.incomeValues ∧
    c9Pay.expenseValues = c9Pay.expenseValues :=
  c9 c9_run1 c9_run2

/-- C10 (confirmed).  For a valid resolved month, every row the
month query returns whose date parses has its day-of-month between 1 and
the month's day count, so `income_by_day[d-1]`/`expense_by_day[d-1]`
stay in range and the builder can never raise `IndexError`; rows whose
date fails to parse are skipped by the loop rather than raising. -/
theorem c10 {db : List TxRow} {year mon : ℤ}
    (h1 : 1 ≤ mon) (h2 : mon ≤ 12) (h3 : 1 ≤ year) (h4 : year ≤ 9999) :
    (∀ tx ∈ monthFetch db year.toNat mon.toNat, ∀ d,
        parseIsoDay tx.date = some d →
        1 ≤ d ∧ d - 1 < daysInMonth year.toNat mon.toNat) ∧
    monthlySeries db year mon ≠ .error .indexError := by
  have hy : year.toNat ≤ 9999 := by omega
  have hm : mon.toNat ≤ 12 := by omega
  have hbound := monthFetch_day_bound db hy hm
  constructor
  · intro tx htx d hp
    obtain ⟨ha, hb⟩ := hbound tx htx d hp
    exact ⟨ha, by omega⟩
  · unfold monthlySeries
    rw [if_pos ⟨h1, h2, h3, h4⟩]
    apply monthlyLoop_no_idx
    intro tx htx d hp
    obtain ⟨ha, hb⟩ := hbound tx htx d hp
    constructor <;> · rw [List.length_replicate]; omega

theorem c10_witness :
    (∀ tx ∈ monthFetch [(⟨1, "income", "A", .num 5, "2024-02-10", none⟩ : TxRow)]
        (2024 : ℤ).toNat (2 : ℤ).toNat, ∀ d,
        parseIsoDay tx.date = some d →
        1 ≤ d ∧ d - 1 < daysInMonth (2024 : ℤ).toNat (2 : ℤ).toNat) ∧
    monthlySeries [(⟨1, "income", "A", .num 5, "2024-02-10", none⟩ : TxRow)]
        2024 2 ≠ .error .indexError :=
  c10 (by decide) (by decide) (by decide) (by decide)

end Finance
